import Mathlib

/-
  Verification development for the MCP tool-orchestration layer of the
  `positive-ai-agents` repository.

  Shallow embedding of the Python modules
    functions/mcp_function_calling.py  (invocation parser)
    functions/mcp_dispatcher.py        (tool dispatcher / capability registry)
    functions/mcp_client.py            (MCP client: execute_tool / batch_execute)
    functions/mcp_tool_executor.py     (orchestrator: execute_tools / process_llm_response)
    functions/mcp_auth.py              (credential store)

  Conventions of the embedding:
  * Python dicts are insertion-ordered association lists.
  * Python exceptions are `Except String` values; a `try/except` block
    becomes a `match` on the `Except`.
  * Wall-clock durations (`time.time() - start_time`) are abstract `Nat`
    tick counts supplied as explicit parameters; `datetime` instants are
    `Int` timestamps.  The textual rendering of a duration (Python
    `f"{t:.2f}"`) is abstracted to `toString`; the only behaviour of that
    format expression that matters to the claims is that formatting the
    Python value `None` raises `TypeError`, which the embedding models
    faithfully as an `Except.error`.
  * `uuid`-based fresh identifiers are replaced by positional counters;
    no claim depends on identifier contents.
-/

namespace MCPSpec

/-- Python runtime values as far as the orchestration layer manipulates
them: strings, ints, floats (kept as their literal text, since no claim
computes with them), booleans, `None`, lists and (insertion-ordered)
dicts. -/
inductive PyValue where
  | str : String → PyValue
  | int : Int → PyValue
  | pfloat : String → PyValue
  | bool : Bool → PyValue
  | none : PyValue
  | list : List PyValue → PyValue
  | dict : List (String × PyValue) → PyValue
deriving Repr

/-- Python truthiness (`bool(v)`), used by `result.get("success", True)` in
the dispatcher. -/
def PyValue.truthy : PyValue → Bool
  | .str s => s ≠ ""
  | .int n => n ≠ 0
  | .pfloat s => s ≠ "0.0"
  | .bool b => b
  | .none => false
  | .list l => !l.isEmpty
  | .dict d => !d.isEmpty

/-- Lookup in a Python dict (association list, first match). -/
def pyGet : List (String × PyValue) → String → Option PyValue
  | [], _ => Option.none
  | (k, v) :: t, key => if key = k then some v else pyGet t key

/-- Characters matched by the regex class `\w` (ASCII reading). -/
def isWordChar (c : Char) : Bool :=
  c.isAlpha || c.isDigit || c = '_'

/-- Characters matched by the regex class `\s` / stripped by `str.strip()`. -/
def isSpaceChar (c : Char) : Bool :=
  List.elem c [' ', '\t', '\n', '\r', '\x0b', '\x0c']

/-- Python `str.strip()` on a character list. -/
def pyStripChars (s : List Char) : List Char :=
  ((s.dropWhile isSpaceChar).reverse.dropWhile isSpaceChar).reverse

/-- Python `str.strip()`. -/
def pyStrip (s : String) : String :=
  String.mk (pyStripChars s.data)

/-- Python `str.strip(chars)` for the quote set used on argument keys
(`key.strip().strip("\x22\x27")`). -/
def pyStripQuotes (s : List Char) : List Char :=
  let isQ : Char → Bool := fun c => c = '"' || c = '\x27'
  ((s.dropWhile isQ).reverse.dropWhile isQ).reverse

/-- Decimal value of a digit run (Python `int` on validated digits). -/
def digitsToNat (d : List Char) : Nat :=
  d.foldl (fun acc c => 10 * acc + (Char.toNat c - 48)) 0

/-- Join a list of strings with a separator (Python `sep.join`). -/
def joinSep (sep : String) : List String → String
  | [] => ""
  | [s] => s
  | s :: t => s ++ sep ++ joinSep sep t

/-- JSON escaping of one character, as produced by `json.dumps`. -/
def jsonEscapeChar (c : Char) : String :=
  if c = '"' then "\\\""
  else if c = '\\' then "\\\\"
  else if c = '\n' then "\\n"
  else if c = '\t' then "\\t"
  else if c = '\r' then "\\r"
  else String.mk [c]

/-- JSON string literal, as produced by `json.dumps`. -/
def jsonQuote (s : String) : String :=
  "\"" ++ String.join (s.data.map jsonEscapeChar) ++ "\""

/-- Insert a key/value entry into a key-sorted entry list (stable;
Python `sort_keys=True` sorts the unique dict keys). -/
def insertSortedEntry (kv : String × PyValue) :
    List (String × PyValue) → List (String × PyValue)
  | [] => [kv]
  | h :: t => if kv.1 < h.1 then kv :: h :: t else h :: insertSortedEntry kv t

/-- Sort dict entries by key, as `json.dumps(..., sort_keys=True)` does. -/
def sortEntries (l : List (String × PyValue)) : List (String × PyValue) :=
  l.foldr insertSortedEntry []

/-- Fuel-driven core of `json.dumps(v, sort_keys=True)` (default
separators).  The fuel only bounds nesting depth; `jsonDumpsSorted`
supplies enough for any value. -/
def jsonDumpsSortedF : Nat → PyValue → String
  | _, .str s => jsonQuote s
  | _, .int n => toString n
  | _, .pfloat s => s
  | _, .bool b => if b then "true" else "false"
  | _, .none => "null"
  | 0, .list _ => ""
  | 0, .dict _ => ""
  | fuel + 1, .list l => "[" ++ joinSep ", " (l.map (jsonDumpsSortedF fuel)) ++ "]"
  | fuel + 1, .dict d =>
      "\x7b" ++
        joinSep ", " ((sortEntries d).map fun kv =>
          jsonQuote kv.1 ++ ": " ++ jsonDumpsSortedF fuel kv.2) ++
      "\x7d"

mutual

/-- Nesting depth of a value (computable fuel bound for serialization). -/
def PyValue.depth : PyValue → Nat
  | .list l => depthList l + 1
  | .dict d => depthEntries d + 1
  | _ => 1

/-- Maximum depth over list elements. -/
def depthList : List PyValue → Nat
  | [] => 0
  | v :: t => max v.depth (depthList t)

/-- Maximum depth over dict entries. -/
def depthEntries : List (String × PyValue) → Nat
  | [] => 0
  | (_, v) :: t => max v.depth (depthEntries t)

end

/-- Embedding of `json.dumps(v, sort_keys=True)` (default separators). -/
def jsonDumpsSorted (v : PyValue) : String :=
  jsonDumpsSortedF v.depth v

/-- Fuel-driven core of `json.dumps(v, indent=2)` (keys in insertion
order, item separator comma + newline, the second argument is the
current indentation). -/
def jsonDumpsIndentF : Nat → Nat → PyValue → String
  | _, _, .str s => jsonQuote s
  | _, _, .int n => toString n
  | _, _, .pfloat s => s
  | _, _, .bool b => if b then "true" else "false"
  | _, _, .none => "null"
  | 0, _, .list _ => ""
  | 0, _, .dict _ => ""
  | _ + 1, _, .list [] => "[]"
  | _ + 1, _, .dict [] => "\x7b\x7d"
  | fuel + 1, ind, .list l =>
      "[\n" ++
        joinSep ",\n" (l.map fun v =>
          String.mk (List.replicate (ind + 2) ' ') ++ jsonDumpsIndentF fuel (ind + 2) v) ++
      "\n" ++ String.mk (List.replicate ind ' ') ++ "]"
  | fuel + 1, ind, .dict d =>
      "\x7b\n" ++
        joinSep ",\n" (d.map fun kv =>
          String.mk (List.replicate (ind + 2) ' ') ++ jsonQuote kv.1 ++ ": " ++
            jsonDumpsIndentF fuel (ind + 2) kv.2) ++
      "\n" ++ String.mk (List.replicate ind ' ') ++ "\x7d"

/-- Embedding of `json.dumps(v, indent=2)`. -/
def jsonDumpsIndent2 (v : PyValue) : String :=
  jsonDumpsIndentF v.depth 0 v

/-- Fuel-driven core of Python `repr` for the embedded values (strings
single-quoted, as in `repr`). -/
def pyReprF : Nat → PyValue → String
  | _, .str s => "\x27" ++ s ++ "\x27"
  | _, .int n => toString n
  | _, .pfloat s => s
  | _, .bool b => if b then "True" else "False"
  | _, .none => "None"
  | 0, .list _ => ""
  | 0, .dict _ => ""
  | fuel + 1, .list l => "[" ++ joinSep ", " (l.map (pyReprF fuel)) ++ "]"
  | fuel + 1, .dict d =>
      "\x7b" ++
        joinSep ", " (d.map fun kv => "\x27" ++ kv.1 ++ "\x27: " ++ pyReprF fuel kv.2) ++
      "\x7d"

/-- Embedding of Python `str(v)` for the embedded values (`str` on a
container falls back to `repr`; on a string it is the identity; the
remaining scalar forms coincide with `repr`). -/
def pyStr : PyValue → String
  | .str s => s
  | v => pyReprF v.depth v

/-
  `json.loads`: a recursive-descent JSON parser over character lists,
  returning `Option.none` where Python raises `json.JSONDecodeError`.
  The fuel bounds nesting depth; the entry point supplies the input
  length, which no well-formed nesting can exceed.
-/

/-- Skip JSON whitespace. -/
def jsonWs (s : List Char) : List Char :=
  s.dropWhile fun c => List.elem c [' ', '\t', '\n', '\r']

/-- Match a literal string prefix. -/
def stripLit : List Char → List Char → Option (List Char)
  | [], s => some s
  | _, [] => Option.none
  | c :: lt, x :: t => if x = c then stripLit lt t else Option.none

/-- Hex digit value. -/
def hexVal (c : Char) : Option Nat :=
  let n := Char.toNat c
  if 48 ≤ n ∧ n ≤ 57 then some (n - 48)
  else if 97 ≤ n ∧ n ≤ 102 then some (n - 87)
  else if 65 ≤ n ∧ n ≤ 70 then some (n - 55)
  else Option.none

/-- Parse the body of a JSON string (after the opening quote), returning
the decoded characters and the rest after the closing quote. -/
def jsonStringBody : List Char → Option (List Char × List Char)
  | [] => Option.none
  | '"' :: t => some ([], t)
  | '\\' :: e :: t =>
      (match e with
        | '"' => (jsonStringBody t).map fun r => ('"' :: r.1, r.2)
        | '\\' => (jsonStringBody t).map fun r => ('\\' :: r.1, r.2)
        | '/' => (jsonStringBody t).map fun r => ('/' :: r.1, r.2)
        | 'n' => (jsonStringBody t).map fun r => ('\n' :: r.1, r.2)
        | 't' => (jsonStringBody t).map fun r => ('\t' :: r.1, r.2)
        | 'r' => (jsonStringBody t).map fun r => ('\r' :: r.1, r.2)
        | 'b' => (jsonStringBody t).map fun r => ('\x08' :: r.1, r.2)
        | 'f' => (jsonStringBody t).map fun r => ('\x0c' :: r.1, r.2)
        | 'u' =>
            match t with
            | h1 :: h2 :: h3 :: h4 :: t4 => do
                let v1 ← hexVal h1
                let v2 ← hexVal h2
                let v3 ← hexVal h3
                let v4 ← hexVal h4
                let r ← jsonStringBody t4
                some (Char.ofNat (((v1 * 16 + v2) * 16 + v3) * 16 + v4) :: r.1, r.2)
            | _ => Option.none
        | _ => Option.none)
  | c :: t => (jsonStringBody t).map fun r => (c :: r.1, r.2)

/-- Parse a JSON number starting at the current position (int per
`json`, decimal point or exponent makes it a float carrying its literal
text). -/
def jsonNumber (s : List Char) : Option (PyValue × List Char) :=
  let (sign, s1) := match s with
    | '-' :: t => (true, t)
    | _ => (false, s)
  let digits := s1.takeWhile Char.isDigit
  if digits = [] then Option.none
  else
    let s2 := s1.drop digits.length
    let (frac, s3) := match s2 with
      | '.' :: t =>
          let fd := t.takeWhile Char.isDigit
          if fd = [] then ([], s2) else ('.' :: fd, t.drop fd.length)
      | _ => ([], s2)
    let (expPart, s4) := match s3 with
      | 'e' :: t =>
          let (es, t1) := match t with
            | '+' :: t2 => (['e', '+'], t2)
            | '-' :: t2 => (['e', '-'], t2)
            | _ => (['e'], t)
          let ed := t1.takeWhile Char.isDigit
          if ed = [] then ([], s3) else (es ++ ed, t1.drop ed.length)
      | 'E' :: t =>
          let (es, t1) := match t with
            | '+' :: t2 => (['E', '+'], t2)
            | '-' :: t2 => (['E', '-'], t2)
            | _ => (['E'], t)
          let ed := t1.takeWhile Char.isDigit
          if ed = [] then ([], s3) else (es ++ ed, t1.drop ed.length)
      | _ => ([], s3)
    if frac = [] ∧ expPart = [] then
      let mag : Int := Int.ofNat (digitsToNat digits)
      some (.int (if sign then -mag else mag), s2)
    else
      some (.pfloat (String.mk ((if sign then ['-'] else []) ++ digits ++ frac ++ expPart)), s4)

mutual

/-- Parse one JSON value (leading whitespace already skipped). -/
def jsonValue : Nat → List Char → Option (PyValue × List Char)
  | _, [] => Option.none
  | fuel, s@(c :: t) =>
      if c = '"' then (jsonStringBody t).map fun r => (.str (String.mk r.1), r.2)
      else if c = 't' then (stripLit ['t', 'r', 'u', 'e'] s).map fun r => (.bool true, r)
      else if c = 'f' then (stripLit ['f', 'a', 'l', 's', 'e'] s).map fun r => (.bool false, r)
      else if c = 'n' then (stripLit ['n', 'u', 'l', 'l'] s).map fun r => (.none, r)
      else if c = '\x7b' then
        match fuel with
        | 0 => Option.none
        | fuel + 1 =>
            match jsonWs t with
            | '\x7d' :: t2 => some (.dict [], t2)
            | t1 => (jsonMembers fuel t1).map fun r => (.dict r.1, r.2)
      else if c = '[' then
        match fuel with
        | 0 => Option.none
        | fuel + 1 =>
            match jsonWs t with
            | ']' :: t2 => some (.list [], t2)
            | t1 => (jsonElements fuel t1).map fun r => (.list r.1, r.2)
      else jsonNumber s

/-- Parse one or more `"key": value` members followed by the closing
brace. -/
def jsonMembers : Nat → List Char → Option (List (String × PyValue) × List Char)
  | 0, _ => Option.none
  | fuel + 1, s => do
      let s1 ← match s with
        | '"' :: t => some t
        | _ => Option.none
      let (key, s2) ← jsonStringBody s1
      let s3 ← match jsonWs s2 with
        | ':' :: t => some t
        | _ => Option.none
      let (v, s4) ← jsonValue fuel (jsonWs s3)
      match jsonWs s4 with
      | ',' :: t =>
          (jsonMembers fuel (jsonWs t)).map fun r =>
            ((String.mk key, v) :: r.1, r.2)
      | '\x7d' :: t => some ([(String.mk key, v)], t)
      | _ => Option.none

/-- Parse one or more array elements followed by the closing bracket. -/
def jsonElements : Nat → List Char → Option (List PyValue × List Char)
  | 0, _ => Option.none
  | fuel + 1, s => do
      let (v, s1) ← jsonValue fuel s
      match jsonWs s1 with
      | ',' :: t => (jsonElements fuel (jsonWs t)).map fun r => (v :: r.1, r.2)
      | ']' :: t => some ([v], t)
      | _ => Option.none

end

/-- Embedding of `json.loads`: parse a full document, requiring only
trailing whitespace after the value. -/
def jsonLoads (s : String) : Option PyValue := do
  let (v, rest) ← jsonValue s.length (jsonWs s.data)
  if jsonWs rest = [] then some v else Option.none

/-
  `re.findall` for the four hard-coded patterns of `FunctionCallParser`.
  Each matcher implements one pattern exactly (greedy character classes
  followed by disjoint literals need no general backtracking; the one
  backtracking case, the optional language group of the markdown
  pattern, is resolved explicitly).  `reFindAll` is the scan loop of
  `re.findall`: try a match at each position left to right, resume after
  a match, advance one character after a failure.  Every matcher
  consumes at least one character, so fuel equal to the input length is
  exact.
-/

/-- Scan loop of `re.findall` (matchers consume at least one char). -/
def reFindAll (matcher : List Char → Option (α × List Char)) :
    Nat → List Char → List α
  | 0, _ => []
  | _, [] => []
  | fuel + 1, s@(_ :: rest) =>
      match matcher s with
      | some (g, r) => g :: reFindAll matcher fuel r
      | Option.none => reFindAll matcher fuel rest

/-- Matcher for the `standard` pattern
`(\w+)\s*\(\s*([^)]*)\s*\)`: a maximal word run, optional whitespace, a
parenthesised body free of the closing parenthesis.  Group 2 is the body
with leading whitespace consumed by the inner `\s*` (trailing whitespace
stays in the greedy `[^)]*`). -/
def matchStandard (s : List Char) : Option ((String × String) × List Char) :=
  let w := s.takeWhile isWordChar
  if w = [] then Option.none
  else
    match (s.drop w.length).dropWhile isSpaceChar with
    | '(' :: r1 =>
        let inner := r1.takeWhile (fun c => c ≠ ')')
        match r1.drop inner.length with
        | ')' :: r2 =>
            some ((String.mk w, String.mk (inner.dropWhile isSpaceChar)), r2)
        | _ => Option.none
    | _ => Option.none

/-- The `standard` regex applied with `findall`. -/
def standardFindAll (text : String) : List (String × String) :=
  reFindAll matchStandard text.length text.data

/-- Quote characters of the regex class `["\x27]`. -/
def isQuoteChar (c : Char) : Bool :=
  c = '"' || c = '\x27'

/-- Matcher for the `xml` pattern
`<function_call\s+name=["\x27]([^"\x27]+)["\x27]\s*>\s*(\x7b[^\x7d]*\x7d)\s*</function_call>`. -/
def matchXml (s : List Char) : Option ((String × String) × List Char) := do
  let r0 ← stripLit "<function_call".data s
  let sp := r0.takeWhile isSpaceChar
  if sp = [] then Option.none
  else do
    let r1 ← stripLit "name=".data (r0.drop sp.length)
    match r1 with
    | q1 :: r2 =>
        if isQuoteChar q1 then
          let nm := r2.takeWhile (fun c => !isQuoteChar c)
          if nm = [] then Option.none
          else
            match r2.drop nm.length with
            | q2 :: r3 =>
                if isQuoteChar q2 then
                  match (r3.dropWhile isSpaceChar) with
                  | '>' :: r4 =>
                      match (r4.dropWhile isSpaceChar) with
                      | '\x7b' :: r5 =>
                          let body := r5.takeWhile (fun c => c ≠ '\x7d')
                          match r5.drop body.length with
                          | '\x7d' :: r6 => do
                              let r7 ← stripLit "</function_call>".data
                                (r6.dropWhile isSpaceChar)
                              some ((String.mk nm,
                                String.mk ('\x7b' :: body ++ ['\x7d'])), r7)
                          | _ => Option.none
                      | _ => Option.none
                  | _ => Option.none
                else Option.none
            | _ => Option.none
        else Option.none
    | _ => Option.none

/-- The `xml` regex applied with `findall`. -/
def xmlFindAll (text : String) : List (String × String) :=
  reFindAll matchXml text.length text.data

/-- Matcher for the `json_tool` pattern: a fenced ```json block holding
`\x7b"tool_use": \x7b"name": "...", "parameters": \x7b...\x7d\x7d\x7d`. -/
def matchJsonTool (s : List Char) : Option ((String × String) × List Char) := do
  let r0 ← stripLit "```json".data s
  let r1 := r0.dropWhile isSpaceChar
  match r1 with
  | '\x7b' :: r2 =>
      match (r2.dropWhile isSpaceChar) with
      | '"' :: r3 => do
          let r4 ← stripLit "tool_use\"".data r3
          match (r4.dropWhile isSpaceChar) with
          | ':' :: r5 =>
              match (r5.dropWhile isSpaceChar) with
              | '\x7b' :: r6 =>
                  match (r6.dropWhile isSpaceChar) with
                  | '"' :: r7 => do
                      let r8 ← stripLit "name\"".data r7
                      match (r8.dropWhile isSpaceChar) with
                      | ':' :: r9 =>
                          match (r9.dropWhile isSpaceChar) with
                          | '"' :: r10 =>
                              let nm := r10.takeWhile (fun c => c ≠ '"')
                              if nm = [] then Option.none
                              else
                                match r10.drop nm.length with
                                | '"' :: r11 =>
                                    match (r11.dropWhile isSpaceChar) with
                                    | ',' :: r12 =>
                                        match (r12.dropWhile isSpaceChar) with
                                        | '"' :: r13 => do
                                            let r14 ← stripLit "parameters\"".data r13
                                            match (r14.dropWhile isSpaceChar) with
                                            | ':' :: r15 =>
                                                match (r15.dropWhile isSpaceChar) with
                                                | '\x7b' :: r16 =>
                                                    let body := r16.takeWhile
                                                      (fun c => c ≠ '\x7d')
                                                    match r16.drop body.length with
                                                    | '\x7d' :: r17 =>
                                                        match (r17.dropWhile isSpaceChar) with
                                                        | '\x7d' :: r18 =>
                                                            match (r18.dropWhile isSpaceChar) with
                                                            | '\x7d' :: r19 => do
                                                                let r20 ← stripLit "```".data
                                                                  (r19.dropWhile isSpaceChar)
                                                                some ((String.mk nm,
                                                                  String.mk ('\x7b' :: body ++
                                                                    ['\x7d'])), r20)
                                                            | _ => Option.none
                                                        | _ => Option.none
                                                    | _ => Option.none
                                                | _ => Option.none
                                            | _ => Option.none
                                        | _ => Option.none
                                    | _ => Option.none
                                | _ => Option.none
                          | _ => Option.none
                      | _ => Option.none
                  | _ => Option.none
              | _ => Option.none
          | _ => Option.none
      | _ => Option.none
  | _ => Option.none

/-- The `json_tool` regex applied with `findall`. -/
def jsonToolFindAll (text : String) : List (String × String) :=
  reFindAll matchJsonTool text.length text.data

/-- Shared tail of the markdown matcher: after language and name have
been fixed, expect `\s*\(\s*([^)]*)\s*\)\s*` and the closing fence. -/
def finishMarkdown (lang nm : String) (s : List Char) :
    Option ((String × String × String) × List Char) :=
  match s.dropWhile isSpaceChar with
  | '(' :: r1 =>
      let inner := r1.takeWhile (fun c => c ≠ ')')
      match r1.drop inner.length with
      | ')' :: r2 => do
          let r3 ← stripLit "```".data (r2.dropWhile isSpaceChar)
          some ((lang, nm, String.mk (inner.dropWhile isSpaceChar)), r3)
      | _ => Option.none
  | _ => Option.none

/-- Matcher for the `markdown` pattern
` ```(\w+)?\s*(\w+)\s*\(\s*([^)]*)\s*\)\s*``` `.  The optional greedy
language group backtracks: if no second word run follows, the engine
retries with the language group one character shorter, making the last
character of the first word run the function name (further shortening
only repeats the same failure, so one retry decides the match). -/
def matchMarkdown (s : List Char) : Option ((String × String × String) × List Char) := do
  let r0 ← stripLit "```".data s
  let w1 := r0.takeWhile isWordChar
  let a1 := r0.drop w1.length
  let a2 := a1.dropWhile isSpaceChar
  let w2 := a2.takeWhile isWordChar
  if w2 ≠ [] then
    finishMarkdown (String.mk w1) (String.mk w2) (a2.drop w2.length)
  else
    match w1.reverse with
    | last :: revInit =>
        finishMarkdown (String.mk revInit.reverse) (String.mk [last]) a1
    | [] => Option.none

/-- The `markdown` regex applied with `findall`. -/
def markdownFindAll (text : String) : List (String × String × String) :=
  reFindAll matchMarkdown text.length text.data

/-- Python `str.lower()` (ASCII). -/
def pyLower (s : String) : String :=
  String.mk (s.data.map Char.toLower)

/-- Python `int(s)` on an already-stripped string: optional sign then a
nonempty digit run, else `ValueError`. -/
def pyIntParse (s : String) : Option Int :=
  let (neg, d) := match s.data with
    | '-' :: t => (true, t)
    | '+' :: t => (false, t)
    | _ => (false, s.data)
  if d ≠ [] ∧ d.all Char.isDigit then
    some (if neg then -(Int.ofNat (digitsToNat d)) else Int.ofNat (digitsToNat d))
  else Option.none

/-- Python `float(s)` on an already-stripped string: optional sign,
digits with an optional decimal point (at least one digit overall) and
an optional exponent.  The accepted literal is kept verbatim. -/
def pyFloatParse (s : String) : Option String :=
  let d0 := s.data
  let d1 := match d0 with
    | '-' :: t => t
    | '+' :: t => t
    | _ => d0
  let intPart := d1.takeWhile Char.isDigit
  let d2 := d1.drop intPart.length
  let (fracPart, d3) := match d2 with
    | '.' :: t =>
        let fd := t.takeWhile Char.isDigit
        ('.' :: fd, t.drop fd.length)
    | _ => ([], d2)
  let digitsOk := intPart ≠ [] ∨ fracPart.length > 1
  let expOk := match d3 with
    | [] => true
    | e :: t =>
        if e = 'e' ∨ e = 'E' then
          let t1 := match t with
            | '+' :: t2 => t2
            | '-' :: t2 => t2
            | _ => t
          t1 ≠ [] ∧ t1.all Char.isDigit
        else False
  if digitsOk ∧ expOk then some s else Option.none

/-- Embedding of `FunctionCallParser._parse_value`: coerce a raw
argument text to a Python value (quoted string, boolean, null, number,
JSON, else raw string). -/
def parse_value (value0 : String) : PyValue :=
  let v := pyStrip value0
  let d := v.data
  if (d.head? = some '"' ∧ d.getLast? = some '"') ∨
     (d.head? = some '\x27' ∧ d.getLast? = some '\x27') then
    .str (String.mk ((d.drop 1).dropLast))
  else if pyLower v = "true" then .bool true
  else if pyLower v = "false" then .bool false
  else if pyLower v = "none" ∨ pyLower v = "null" then .none
  else
    let numeric : Option PyValue :=
      if '.' ∈ d then (pyFloatParse v).map .pfloat
      else (pyIntParse v).map .int
    match numeric with
    | some n => n
    | Option.none =>
        match jsonLoads v with
        | some j => j
        | Option.none => .str v

/-- Embedding of `FunctionCallParser._smart_split`: split on a delimiter
while a quote-toggling flag protects quoted regions.  A part is emitted
at each delimiter (even if empty); the final part only if nonempty. -/
def smartSplitAux (delim : Char) :
    List Char → List Char → Bool → Option Char → List String
  | [], current, _, _ =>
      if current ≠ [] then [String.mk current.reverse] else []
  | c :: t, current, inQ, qc =>
      if (c = '"' ∨ c = '\x27') ∧ ¬inQ then
        smartSplitAux delim t (c :: current) true (some c)
      else if some c = qc ∧ inQ then
        smartSplitAux delim t (c :: current) false Option.none
      else if c = delim ∧ ¬inQ then
        String.mk current.reverse :: smartSplitAux delim t [] inQ qc
      else
        smartSplitAux delim t (c :: current) inQ qc

/-- Entry point of `_smart_split`. -/
def smart_split (text : String) (delim : Char) : List String :=
  smartSplitAux delim text.data [] false Option.none

/-- Python `key = value` split at the first `=` (`str.split("=", 1)`). -/
def splitOnceEq : List Char → Option (List Char × List Char)
  | [] => Option.none
  | '=' :: t => some ([], t)
  | c :: t => (splitOnceEq t).map fun r => (c :: r.1, r.2)

/-- Assignment into a Python dict modelled as an insertion-ordered
association list: an existing key is updated in place, a new key is
appended. -/
def dictInsert (k : κ) (v : α) [DecidableEq κ] : List (κ × α) → List (κ × α)
  | [] => [(k, v)]
  | (k2, v2) :: t => if k = k2 then (k, v) :: t else (k2, v2) :: dictInsert k v t

/-- Embedding of `FunctionCallParser._parse_arguments_string`: try the
whole body as JSON wrapped in braces, else split into `key=value` pairs
and coerce each value. -/
def parse_arguments_string (args_str : String) : List (String × PyValue) :=
  if pyStrip args_str = "" then []
  else
    match jsonLoads ("\x7b" ++ args_str ++ "\x7d") with
    | some (.dict d) => d
    | _ =>
        (smart_split args_str ',').foldl
          (fun arguments part0 =>
            let part := pyStrip part0
            match splitOnceEq part.data with
            | some (k, v) =>
                dictInsert (String.mk (pyStripQuotes (pyStripChars k)))
                  (parse_value (pyStrip (String.mk v))) arguments
            | Option.none => arguments)
          []

/-- A parsed function call from the LLM text
(`ParsedFunctionCall` dataclass).  The source's float confidences are
exactly the literals 0.7, 0.8, 0.9, 0.95 and 1.0; the embedding stores
hundredths (70, 80, 90, 95, 100), which represents each of them exactly
and preserves every comparison between them. -/
structure ParsedFunctionCall where
  name : String
  arguments : List (String × PyValue)
  raw_text : String
  confidence : Nat
deriving Repr

/-- Embedding of `FunctionCallParser._parse_xml_style` (confidence 0.9;
invalid JSON bodies are dropped with a warning). -/
def parse_xml_style (text : String) (available_tools : List String) :
    List ParsedFunctionCall :=
  (xmlFindAll text).filterMap fun m =>
    if m.1 ∈ available_tools then
      match jsonLoads m.2 with
      | some (.dict args) =>
          some ⟨m.1, args,
            "<function_call name=\"" ++ m.1 ++ "\">" ++ m.2 ++ "</function_call>",
            90⟩
      | _ => Option.none
    else Option.none

/-- Embedding of `FunctionCallParser._parse_json_tool_use`
(confidence 0.95). -/
def parse_json_tool_use (text : String) (available_tools : List String) :
    List ParsedFunctionCall :=
  (jsonToolFindAll text).filterMap fun m =>
    if m.1 ∈ available_tools then
      match jsonLoads m.2 with
      | some (.dict params) =>
          some ⟨m.1, params,
            "```json\x7b\"tool_use\": \x7b\"name\": \"" ++ m.1 ++
              "\", \"parameters\": " ++ m.2 ++ "\x7d\x7d```",
            95⟩
      | _ => Option.none
    else Option.none

/-- Embedding of `FunctionCallParser._parse_standard_calls`
(confidence 0.8). -/
def parse_standard_calls (text : String) (available_tools : List String) :
    List ParsedFunctionCall :=
  (standardFindAll text).filterMap fun m =>
    if m.1 ∈ available_tools then
      some ⟨m.1, parse_arguments_string m.2, m.1 ++ "(" ++ m.2 ++ ")", 80⟩
    else Option.none

/-- Embedding of `FunctionCallParser._parse_markdown_calls`
(confidence 0.7). -/
def parse_markdown_calls (text : String) (available_tools : List String) :
    List ParsedFunctionCall :=
  (markdownFindAll text).filterMap fun m =>
    if m.2.1 ∈ available_tools then
      some ⟨m.2.1, parse_arguments_string m.2.2,
        "```" ++ m.1 ++ "\n" ++ m.2.1 ++ "(" ++ m.2.2 ++ ")\n```", 70⟩
    else Option.none

/-- Deduplication key of `_deduplicate_calls`:
`(call.name, json.dumps(call.arguments, sort_keys=True))`. -/
def call_key (c : ParsedFunctionCall) : String × String :=
  (c.name, jsonDumpsSorted (.dict c.arguments))

/-- Lookup in the `call_groups` dict. -/
def lookupKey (groups : List ((String × String) × ParsedFunctionCall))
    (k : String × String) : Option ParsedFunctionCall :=
  match groups.find? (fun kv => kv.1 = k) with
  | some kv => some kv.2
  | Option.none => Option.none

/-- One iteration of the `_deduplicate_calls` grouping loop: keep the
incumbent unless the new detection has strictly higher confidence. -/
def dedup_step (groups : List ((String × String) × ParsedFunctionCall))
    (call : ParsedFunctionCall) : List ((String × String) × ParsedFunctionCall) :=
  match lookupKey groups (call_key call) with
  | some prev =>
      if prev.confidence < call.confidence then dictInsert (call_key call) call groups
      else groups
  | Option.none => dictInsert (call_key call) call groups

/-- Embedding of `FunctionCallParser._deduplicate_calls`. -/
def deduplicate_calls (calls : List ParsedFunctionCall) : List ParsedFunctionCall :=
  (calls.foldl dedup_step []).map Prod.snd

/-- Embedding of `FunctionCallParser.parse_llm_response`: run the four
encodings in their fixed order, concatenate, deduplicate. -/
def parse_llm_response (response : String) (available_tools : List String) :
    List ParsedFunctionCall :=
  deduplicate_calls
    (parse_xml_style response available_tools ++
     parse_json_tool_use response available_tools ++
     parse_standard_calls response available_tools ++
     parse_markdown_calls response available_tools)

/-- A validated, ready-to-execute tool call (`ToolCall` dataclass of
`mcp_client.py`). -/
structure ToolCall where
  id : String
  name : String
  parameters : List (String × PyValue)
deriving Repr

/-- The result of one tool execution (`ToolResult` dataclass of
`mcp_client.py`).  `execution_time` is `Option Nat`: `Option.none` is the
Python default `None`, present whenever a result is constructed without
the keyword argument. -/
structure ToolResult where
  success : Bool
  content : Option PyValue
  error : Option String := Option.none
  tool_name : Option String := Option.none
  execution_time : Option Nat := Option.none
deriving Repr

/-- Embedding of `FunctionCallParser.create_tool_calls`; the `uuid`
fragment of each id is replaced by the position (no claim inspects
ids). -/
def create_tool_calls (parsed_calls : List ParsedFunctionCall) : List ToolCall :=
  parsed_calls.enum.map fun ic => ⟨"call_" ++ toString ic.1, ic.2.name, ic.2.arguments⟩

/-
  Dispatcher (`mcp_dispatcher.py`).  A provider handler takes the call
  parameters and either returns a value or raises; `Except.error e`
  models `raise` with `str(exception) = e`.  The tool mapping is the
  association-list image of `self.tool_mapping`; the elapsed wall time
  of the handler invocation is the explicit `t` parameter.
-/

/-- A provider handler: named-argument mapping in, value out or raise. -/
def Handler : Type := List (String × PyValue) → Except String PyValue

/-- Embedding of `MCPToolDispatcher.dispatch_tool`. -/
def dispatch_tool (tool_mapping : List (String × Handler)) (is_init : Bool)
    (tc : ToolCall) (t : Nat) : ToolResult :=
  if ¬is_init then
    { success := false, content := Option.none,
      error := some "MCP Tool Dispatcher not initialized",
      tool_name := some tc.name }
  else
    match (tool_mapping.find? (fun kv => kv.1 = tc.name)).map Prod.snd with
    | Option.none =>
        { success := false, content := Option.none,
          error := some ("Tool \x27" ++ tc.name ++
            "\x27 not found. Available tools: " ++
            toString (tool_mapping.map Prod.fst)),
          tool_name := some tc.name }
    | some f =>
        match f tc.parameters with
        | .error e =>
            { success := false, content := Option.none, error := some e,
              tool_name := some tc.name, execution_time := some t }
        | .ok result =>
            match result with
            | .dict d =>
                if ((pyGet d "success").getD (.bool true)).truthy &&
                    (pyGet d "error").isNone then
                  { success := true, content := some result,
                    tool_name := some tc.name, execution_time := some t }
                else
                  { success := false, content := some result,
                    error := some (match pyGet d "error" with
                      | some (.str e) => e
                      | some v => pyStr v
                      | Option.none => "Unknown error"),
                    tool_name := some tc.name, execution_time := some t }
            | _ =>
                { success := true, content := some result,
                  tool_name := some tc.name, execution_time := some t }

/-- Result slot produced by the `asyncio.gather(..., return_exceptions=True)`
post-processing loop shared by `MCPToolDispatcher.dispatch_batch` and
`MCPClient.batch_execute`: a task that resolved keeps its result, a task
that raised becomes a failed result named after the call in that slot. -/
def gather_slot (task : ToolCall → Except String ToolResult) (c : ToolCall) : ToolResult :=
  match task c with
  | .ok r => r
  | .error e =>
      { success := false, content := Option.none, error := some e,
        tool_name := some c.name }

/-- The gather + post-process shape shared by both batch entry points:
one task per call, input order preserved by `asyncio.gather`. -/
def gather_batch (task : ToolCall → Except String ToolResult)
    (tool_calls : List ToolCall) : List ToolResult :=
  ((tool_calls.map task).zip tool_calls).map fun rc =>
    match rc.1 with
    | .ok r => r
    | .error e =>
        { success := false, content := Option.none, error := some e,
          tool_name := some rc.2.name }

/-- Embedding of `MCPToolDispatcher.dispatch_batch`; `task c` is the
outcome of the `dispatch_tool(c)` coroutine, `Except.error` being an
unexpected task-level exception. -/
def dispatch_batch (task : ToolCall → Except String ToolResult)
    (tool_calls : List ToolCall) : List ToolResult :=
  gather_batch task tool_calls

/-
  Client (`mcp_client.py`).  `tool_to_server` reduces to the set of
  tool names registered by some enabled server, and `_call_mcp_server`
  reduces to the dispatcher function (its own `except` arm repackages
  any raise, so it is total given a total dispatcher).
-/

/-- Embedding of `MCPClient.execute_tool`: route through
`_call_mcp_server` (the dispatcher), then overwrite `execution_time` and
`tool_name` on the way out; an unroutable tool is a failed result that
keeps `execution_time = None`. -/
def execute_tool (tool_to_server : List String) (disp : ToolCall → ToolResult)
    (tc : ToolCall) (t : Nat) : ToolResult :=
  if tc.name ∈ tool_to_server then
    let r := disp tc
    { r with execution_time := some t, tool_name := some tc.name }
  else
    { success := false, content := Option.none,
      error := some ("Tool \x27" ++ tc.name ++ "\x27 not found in any server"),
      tool_name := some tc.name }

/-- Embedding of `MCPClient.batch_execute`; `task c` is the outcome of
the `execute_tool(c)` coroutine. -/
def batch_execute (task : ToolCall → Except String ToolResult)
    (tool_calls : List ToolCall) : List ToolResult :=
  gather_batch task tool_calls

/-
  Orchestrator (`mcp_tool_executor.py`).  The agent-configuration
  collaborator (`get_tools_for_agent`) is the explicit `available`
  parameter; the client methods `execute_tool` / `batch_execute` are
  the explicit `execOne` / `execMany` parameters.
-/

/-- The failed result `MCPToolExecutor.execute_tools` appends for a
call whose tool is not in the agent allow-list. -/
def unauthorized_result (agent_id : String) (c : ToolCall) : ToolResult :=
  { success := false, content := Option.none,
    error := some ("Tool \x27" ++ c.name ++ "\x27 not available for agent \x27" ++
      agent_id ++ "\x27"),
    tool_name := some c.name }

/-- The `validated_calls` list of `execute_tools`: input order, allowed
names only. -/
def validated_calls (available : List String) (tool_calls : List ToolCall) :
    List ToolCall :=
  tool_calls.filter fun c => c.name ∈ available

/-- Embedding of `MCPToolExecutor.execute_tools`: one validation pass
appends a failed result per unauthorized call, then the validated calls
are dispatched — directly when exactly one survived, as a batch
otherwise — and their results appended after the failures. -/
def execute_tools (client_present : Bool) (execOne : ToolCall → ToolResult)
    (execMany : List ToolCall → List ToolResult) (available : List String)
    (agent_id : String) (tool_calls : List ToolCall) : List ToolResult :=
  if ¬client_present then []
  else
    let fails := (tool_calls.filter fun c => c.name ∉ available).map
      (unauthorized_result agent_id)
    match validated_calls available tool_calls with
    | [] => fails
    | [v] => fails ++ [execOne v]
    | vs => fails ++ execMany vs

/-- Python rendering of an `Optional[str]` inside an f-string. -/
def pyStrOpt : Option String → String
  | some s => s
  | Option.none => "None"

/-- Embedding of `format_tool_result_for_llm`
(`mcp_function_calling.py`).  The f-string formats
`result.execution_time` with `:.2f`; when `execution_time` is `None`
this raises `TypeError`, modelled as `Except.error` (the duration text
itself is abstracted to `toString`). -/
def format_tool_result_for_llm (r : ToolResult) : Except String String :=
  match r.execution_time with
  | Option.none =>
      .error "unsupported format string passed to NoneType.__format__"
  | some t =>
      if r.success then
        let content : String :=
          match r.content with
          | some (.dict d) => jsonDumpsIndent2 (.dict d)
          | some (.str s) => s
          | some v => pyStr v
          | Option.none => "None"
        .ok ("🔧 **Tool: " ++ pyStrOpt r.tool_name ++ "** (✅ Success - " ++
          toString t ++ "s)\n\nResult:\n```\n" ++ content ++ "\n```")
      else
        .ok ("🔧 **Tool: " ++ pyStrOpt r.tool_name ++ "** (❌ Failed - " ++
          toString t ++ "s)\n\nError: " ++ pyStrOpt r.error)

/-- Embedding of `format_multiple_results_for_llm`: format each result
in order (the first raise aborts the loop) and join with the separator
line. -/
def format_multiple_results_for_llm (results : List ToolResult) :
    Except String String :=
  match results.mapM format_tool_result_for_llm with
  | .ok l => .ok (joinSep "\n\n---\n\n" l)
  | .error e => .error e

/-- A native function call reported by the Gemini runtime
(`fc.name` / `fc.args`). -/
structure GeminiFunctionCall where
  name : String
  args : List (String × PyValue)
deriving Repr

/-- The Gemini response object as far as
`GeminiFunctionCallHandler.extract_from_gemini_response` inspects it:
an optional native call list and an optional text. -/
structure GeminiResponse where
  function_calls : List GeminiFunctionCall
  text : Option String
deriving Repr

/-- Embedding of
`GeminiFunctionCallHandler.extract_from_gemini_response`: native calls
take precedence; otherwise nonempty text is parsed with an empty
available-tools list. -/
def extract_from_gemini_response (resp : GeminiResponse) : List ToolCall :=
  if !resp.function_calls.isEmpty then
    resp.function_calls.enum.map fun ifc =>
      ⟨"gemini_call_" ++ toString ifc.1, ifc.2.name, ifc.2.args⟩
  else
    match resp.text with
    | some s =>
        if s ≠ "" then create_tool_calls (parse_llm_response s []) else []
    | Option.none => []

/-- Embedding of `MCPToolExecutor.process_llm_response`: gather tool
calls (native first, text parsing as fallback), execute them, format
the results and append the rendered block to the original response.
The surrounding `try/except` returns the unmodified response and an
empty result list when anything inside raises — in this embedding the
only raise is the `TypeError` of `format_tool_result_for_llm`. -/
def process_llm_response (is_init client_present : Bool)
    (execOne : ToolCall → ToolResult) (execMany : List ToolCall → List ToolResult)
    (available : List String) (agent_id : String)
    (llm_response : String) (gemini_response : Option GeminiResponse) :
    String × List ToolResult :=
  if ¬is_init then (llm_response, [])
  else if available.isEmpty then (llm_response, [])
  else
    let native : List ToolCall :=
      match gemini_response with
      | some g => extract_from_gemini_response g
      | Option.none => []
    let tool_calls :=
      if native.isEmpty then
        create_tool_calls (parse_llm_response llm_response available)
      else native
    if tool_calls.isEmpty then (llm_response, [])
    else
      let results := execute_tools client_present execOne execMany available
        agent_id tool_calls
      match format_multiple_results_for_llm results with
      | .error _ => (llm_response, [])
      | .ok txt =>
          (if txt ≠ "" then llm_response ++ "\n\n" ++ txt else llm_response,
            results)

/-
  Credential store (`mcp_auth.py`).  `datetime` instants are `Int`
  timestamps in seconds; `datetime.now()` is the explicit `now`
  parameter; `os.getenv` and `os.path.exists` are the explicit `getenv`
  and `path_exists` parameters.
-/

/-- The credentials dataclasses (`Credentials` with its three
subclasses). -/
inductive Credentials where
  | apiKey (service : String) (created_at : Int) (expires_at : Option Int)
      (api_key : String)
  | oauth (service : String) (created_at : Int) (expires_at : Option Int)
      (access_token : String) (refresh_token : Option String) (token_type : String)
  | basic (service : String) (created_at : Int) (expires_at : Option Int)
      (username : String) (password : String)
deriving Repr

/-- The shared `expires_at` field. -/
def Credentials.expires_at : Credentials → Option Int
  | .apiKey _ _ e _ => e
  | .oauth _ _ e _ _ _ => e
  | .basic _ _ e _ _ => e

/-- Embedding of `Credentials.is_expired`:
`expires_at is not None and datetime.now() >= expires_at`. -/
def Credentials.is_expired (c : Credentials) (now : Int) : Bool :=
  match c.expires_at with
  | Option.none => false
  | some e => e ≤ now

/-- The base64 alphabet. -/
def b64Alphabet : List Char :=
  "ABCDEFGHIJKLMNOPQRSTUVWXYZabcdefghijklmnopqrstuvwxyz0123456789+/".data

/-- One base64 digit. -/
def b64Digit (n : Nat) : Char :=
  b64Alphabet.getD n 'A'

/-- Base64-encode a byte list (standard alphabet, `=` padding). -/
def b64encodeBytes : List Nat → List Char
  | [] => []
  | [a] =>
      [b64Digit (a / 4), b64Digit (a % 4 * 16), '=', '=']
  | [a, b] =>
      [b64Digit (a / 4), b64Digit (a % 4 * 16 + b / 16), b64Digit (b % 16 * 4), '=']
  | a :: b :: c :: t =>
      b64Digit (a / 4) :: b64Digit (a % 4 * 16 + b / 16) ::
        b64Digit (b % 16 * 4 + c / 64) :: b64Digit (c % 64) :: b64encodeBytes t

/-- Embedding of `base64.b64encode(s.encode()).decode()` (ASCII
payloads). -/
def b64encode (s : String) : String :=
  String.mk (b64encodeBytes (s.data.map Char.toNat))

/-- Embedding of `get_headers` across the three credential kinds. -/
def Credentials.get_headers : Credentials → List (String × String)
  | .apiKey _ _ _ key => [("Authorization", "Bearer " ++ key)]
  | .oauth _ _ _ tok _ ttype => [("Authorization", ttype ++ " " ++ tok)]
  | .basic _ _ _ user pass =>
      [("Authorization", "Basic " ++ b64encode (user ++ ":" ++ pass))]

/-- Embedding of `MCPAuthManager._load_credentials_from_env`, with the
environment-variable names of `_load_env_mapping` inlined.  The
google_drive OAuth branch issues a credential that expires one hour
(3600 seconds) from now. -/
def load_credentials_from_env (getenv : String → Option String)
    (path_exists : String → Bool) (now : Int) (service : String) :
    Option Credentials :=
  if service = "github" then
    (getenv "GITHUB_TOKEN").map fun key =>
      .apiKey service now Option.none key
  else if service = "google_drive" then
    match getenv "GOOGLE_CLIENT_ID", getenv "GOOGLE_CLIENT_SECRET",
        getenv "GOOGLE_REFRESH_TOKEN" with
    | some _, some _, some refresh =>
        some (.oauth service now (some (now + 3600)) "" (some refresh) "Bearer")
    | _, _, _ =>
        match getenv "GOOGLE_DRIVE_CREDENTIALS_PATH" with
        | some path =>
            if path_exists path then some (.apiKey service now Option.none path)
            else Option.none
        | Option.none => Option.none
  else if service = "jira" then
    match getenv "JIRA_USERNAME", getenv "JIRA_API_TOKEN" with
    | some user, some tok => some (.basic service now Option.none user tok)
    | _, _ => Option.none
  else if service = "slack" then
    (getenv "SLACK_BOT_TOKEN").map fun key => .apiKey service now Option.none key
  else if service = "linear" then
    (getenv "LINEAR_API_KEY").map fun key => .apiKey service now Option.none key
  else if service = "notion" then
    (getenv "NOTION_API_KEY").map fun key => .apiKey service now Option.none key
  else Option.none

/-- Cache lookup (`service in self.credentials_cache`). -/
def cacheLookup (cache : List (String × Credentials)) (service : String) :
    Option Credentials :=
  match cache.find? (fun kv => kv.1 = service) with
  | some kv => some kv.2
  | Option.none => Option.none

/-- Embedding of `MCPAuthManager.get_credentials`: an unexpired cache
hit is returned as is; otherwise (miss or expired entry) the store
tries the environment, caching a success; a failed load returns `None`
and leaves the cache unchanged (the expired entry is not evicted). -/
def get_credentials (getenv : String → Option String)
    (path_exists : String → Bool) (now : Int)
    (cache : List (String × Credentials)) (service : String) :
    Option Credentials × List (String × Credentials) :=
  let fromEnv :=
    match load_credentials_from_env getenv path_exists now service with
    | some creds => (some creds, dictInsert service creds cache)
    | Option.none => (Option.none, cache)
  match cacheLookup cache service with
  | some creds => if ¬creds.is_expired now then (some creds, cache) else fromEnv
  | Option.none => fromEnv

/-- Embedding of `MCPAuthManager.get_auth_headers`: `{}` when no usable
credential is found. -/
def get_auth_headers (getenv : String → Option String)
    (path_exists : String → Bool) (now : Int)
    (cache : List (String × Credentials)) (service : String) :
    List (String × String) :=
  match (get_credentials getenv path_exists now cache service).1 with
  | some creds => creds.get_headers
  | Option.none => []

/-
  Capability registry (`MCPToolDispatcher._build_tool_mapping`).  The
  registry is a Python dict literal; the embedding keeps the entry list
  in source order, with each handler identified by the name of the
  server function it binds (the three calendar entries bind the closure
  made by `_not_implemented`).  `py_dict_literal` gives the dict a
  literal denotes: entries folded left with assignment semantics, so a
  duplicated key would silently keep the later handler.
-/

/-- A Python dict literal: left fold of assignments over the written
entries. -/
def py_dict_literal [DecidableEq κ] (entries : List (κ × α)) : List (κ × α) :=
  entries.foldl (fun acc kv => dictInsert kv.1 kv.2 acc) []

/-- The entry list of `_build_tool_mapping`, in source order. -/
def tool_mapping_entries : List (String × String) :=
  [("create_issue", "github_create_issue"),
   ("github_create_issue", "github_create_issue"),
   ("get_repository", "github_get_repository"),
   ("github_get_repository", "github_get_repository"),
   ("list_issues", "github_list_issues"),
   ("github_list_issues", "github_list_issues"),
   ("get_file_contents", "github_get_file_contents"),
   ("github_get_file_contents", "github_get_file_contents"),
   ("create_file", "github_create_file"),
   ("github_create_file", "github_create_file"),
   ("search_repositories", "github_search_repositories"),
   ("github_search_repositories", "github_search_repositories"),
   ("create_jira_issue", "jira_create_issue"),
   ("jira_create_issue", "jira_create_issue"),
   ("get_issue", "jira_get_issue"),
   ("jira_get_issue", "jira_get_issue"),
   ("update_issue", "jira_update_issue"),
   ("jira_update_issue", "jira_update_issue"),
   ("search_issues", "jira_search_issues"),
   ("jira_search_issues", "jira_search_issues"),
   ("add_comment", "jira_add_comment"),
   ("jira_add_comment", "jira_add_comment"),
   ("transition_issue", "jira_transition_issue"),
   ("jira_transition_issue", "jira_transition_issue"),
   ("list_projects", "jira_list_projects"),
   ("jira_list_projects", "jira_list_projects"),
   ("create_document", "gdrive_create_document"),
   ("gdrive_create_document", "gdrive_create_document"),
   ("create_spreadsheet", "gdrive_create_spreadsheet"),
   ("gdrive_create_spreadsheet", "gdrive_create_spreadsheet"),
   ("read_document", "gdrive_read_document"),
   ("gdrive_read_document", "gdrive_read_document"),
   ("update_document", "gdrive_update_document"),
   ("gdrive_update_document", "gdrive_update_document"),
   ("list_files", "gdrive_list_files"),
   ("gdrive_list_files", "gdrive_list_files"),
   ("search_files", "gdrive_list_files"),
   ("share_file", "gdrive_share_file"),
   ("gdrive_share_file", "gdrive_share_file"),
   ("web_search", "web_search"),
   ("search_web", "web_search"),
   ("news_search", "news_search"),
   ("search_news", "news_search"),
   ("get_page_content", "get_page_content"),
   ("fetch_page", "get_page_content"),
   ("get_page_summary", "get_page_summary"),
   ("summarize_page", "get_page_summary"),
   ("send_email", "send_email"),
   ("email_send", "send_email"),
   ("send_html_email", "send_html_email"),
   ("send_email_with_attachment", "send_email_with_attachment"),
   ("email_with_attachment", "send_email_with_attachment"),
   ("create_draft", "create_draft"),
   ("create_email_draft", "create_draft"),
   ("create_event", "not_implemented(create_event)"),
   ("list_events", "not_implemented(list_events)"),
   ("get_free_busy", "not_implemented(get_free_busy)")]

/-- The built registry (`self.tool_mapping`). -/
def build_tool_mapping : List (String × String) :=
  py_dict_literal tool_mapping_entries

/-
  Generic lemmas about the embedded Python-dict operations, shared by
  several claims below.
-/

section DictLemmas

variable {κ : Type} {α : Type} [DecidableEq κ]

/-- Assigning an absent key appends the entry. -/
theorem dictInsert_eq_append {k : κ} {v : α} {l : List (κ × α)}
    (h : ∀ kv ∈ l, kv.1 ≠ k) : dictInsert k v l = l ++ [(k, v)] := by
  induction l with
  | nil => rfl
  | cons kv t ih =>
      have hk : k ≠ kv.1 := fun he => h kv (by simp) (by simp [he])
      simp only [dictInsert, if_neg hk, List.cons_append]
      rw [ih fun kv2 h2 => h kv2 (by simp [h2])]

/-- Assigning a present key keeps the key list unchanged. -/
theorem map_fst_dictInsert_mem {k : κ} {v : α} {l : List (κ × α)}
    (h : k ∈ l.map Prod.fst) : (dictInsert k v l).map Prod.fst = l.map Prod.fst := by
  induction l with
  | nil => simp at h
  | cons kv t ih =>
      by_cases hk : k = kv.1
      · simp [dictInsert, hk]
      · have h2 : k ∈ t.map Prod.fst := by
          simp only [List.map_cons] at h
          rcases List.mem_cons.mp h with h2 | h2
          · exact absurd h2 hk
          · exact h2
        simp [dictInsert, hk, ih h2]

/-- Every entry of the updated dict is the new entry or an old one. -/
theorem mem_dictInsert {k : κ} {v : α} {l : List (κ × α)} {kv : κ × α}
    (h : kv ∈ dictInsert k v l) : kv = (k, v) ∨ kv ∈ l := by
  induction l with
  | nil => simpa [dictInsert] using h
  | cons kv2 t ih =>
      by_cases hk : k = kv2.1
      · simp only [dictInsert, if_pos hk] at h
        rcases List.mem_cons.mp h with h2 | h2
        · exact Or.inl h2
        · exact Or.inr (List.mem_cons.mpr (Or.inr h2))
      · simp only [dictInsert, if_neg hk] at h
        rcases List.mem_cons.mp h with h2 | h2
        · exact Or.inr (List.mem_cons.mpr (Or.inl h2))
        · rcases ih h2 with h3 | h3
          · exact Or.inl h3
          · exact Or.inr (List.mem_cons.mpr (Or.inr h3))

/-- An old entry with a different key survives the assignment. -/
theorem mem_dictInsert_of_ne {k : κ} {v : α} {l : List (κ × α)} {kv : κ × α}
    (h : kv ∈ l) (hne : kv.1 ≠ k) : kv ∈ dictInsert k v l := by
  induction l with
  | nil => simp at h
  | cons kv2 t ih =>
      by_cases hk : k = kv2.1
      · simp only [dictInsert, if_pos hk]
        rcases List.mem_cons.mp h with h2 | h2
        · exact absurd (by rw [h2]; exact hk.symm) hne
        · exact List.mem_cons.mpr (Or.inr h2)
      · simp only [dictInsert, if_neg hk]
        rcases List.mem_cons.mp h with h2 | h2
        · exact List.mem_cons.mpr (Or.inl h2)
        · exact List.mem_cons.mpr (Or.inr (ih h2))

/-- The assigned entry is in the updated dict. -/
theorem mem_dictInsert_self {k : κ} {v : α} {l : List (κ × α)} :
    (k, v) ∈ dictInsert k v l := by
  induction l with
  | nil => simp [dictInsert]
  | cons kv t ih =>
      by_cases hk : k = kv.1
      · simp [dictInsert, hk]
      · simp only [dictInsert, if_neg hk]
        exact List.mem_cons.mpr (Or.inr ih)

end DictLemmas

/-
  Lemmas about `lookupKey` and the deduplication fold.
-/

/-- A lookup miss means no entry has the key. -/
theorem lookupKey_eq_none {groups : List ((String × String) × ParsedFunctionCall)}
    {k : String × String} (h : lookupKey groups k = Option.none) :
    ∀ kv ∈ groups, kv.1 ≠ k := by
  intro kv hm he
  unfold lookupKey at h
  rcases hf : List.find? (fun kv => decide (kv.1 = k)) groups with _ | kv2
  · have := List.find?_eq_none.mp hf kv hm
    simp [he] at this
  · simp [hf] at h

/-- A lookup hit is a member. -/
theorem lookupKey_some_mem {groups : List ((String × String) × ParsedFunctionCall)}
    {k : String × String} {v : ParsedFunctionCall}
    (h : lookupKey groups k = some v) : (k, v) ∈ groups := by
  unfold lookupKey at h
  rcases hf : List.find? (fun kv => decide (kv.1 = k)) groups with _ | kv2
  · simp [hf] at h
  · simp only [hf] at h
    have hm := List.mem_of_find?_eq_some hf
    have hp := List.find?_some hf
    have hk : kv2.1 = k := by simpa using hp
    have hv : kv2.2 = v := by simpa using h
    have : kv2 = (k, v) := Prod.ext hk hv
    exact this ▸ hm

/-- With pairwise-distinct keys, membership determines the lookup. -/
theorem lookupKey_of_mem_nodup {groups : List ((String × String) × ParsedFunctionCall)}
    {k : String × String} {v : ParsedFunctionCall}
    (hnd : (groups.map Prod.fst).Nodup) (hm : (k, v) ∈ groups) :
    lookupKey groups k = some v := by
  induction groups with
  | nil => simp at hm
  | cons kv t ih =>
      have hnd2 : kv.1 ∉ t.map Prod.fst ∧ (t.map Prod.fst).Nodup := by
        simpa [List.nodup_cons] using hnd
      rcases List.mem_cons.mp hm with hm2 | hm2
      · unfold lookupKey
        rw [← hm2]
        simp [List.find?_cons]
      · have hk : kv.1 ≠ k := by
          intro he
          exact hnd2.1 (List.mem_map.mpr ⟨(k, v), hm2, by simp [he]⟩)
        have hrec := ih hnd2.2 hm2
        unfold lookupKey at hrec ⊢
        rw [List.find?_cons]
        rw [show (decide (kv.1 = k)) = false by simpa using hk]
        exact hrec

/-- The shared gather shape is a pointwise map over the calls. -/
theorem gather_batch_eq_map (task : ToolCall → Except String ToolResult)
    (tool_calls : List ToolCall) :
    gather_batch task tool_calls = tool_calls.map (gather_slot task) := by
  induction tool_calls with
  | nil => rfl
  | cons c t ih =>
      simp only [gather_batch, List.map_cons, List.zip_cons_cons] at ih ⊢
      rw [ih]
      rfl

/-- A concrete provider handler that always raises (for witnesses). -/
def boom_handler : Handler := fun _ => .error "boom"

/-- C1: dispatch is total — `dispatch_tool` and `execute_tool` are
functions into `ToolResult`, so every `ToolCall` yields exactly one
result; and when the resolved handler raises `e`, both return a failed
result carrying `e` as its error message (the exception never
propagates: there is no other outcome). -/
theorem C1_dispatch_total (tool_mapping : List (String × Handler))
    (tool_to_server : List String) (tc : ToolCall) (t u : Nat)
    (f : Handler) (e : String)
    (hf : (tool_mapping.find? (fun kv => kv.1 = tc.name)).map Prod.snd = some f)
    (he : f tc.parameters = .error e)
    (hs : tc.name ∈ tool_to_server) :
    dispatch_tool tool_mapping true tc t =
      { success := false, content := Option.none, error := some e,
        tool_name := some tc.name, execution_time := some t } ∧
    execute_tool tool_to_server (fun c => dispatch_tool tool_mapping true c t) tc u =
      { success := false, content := Option.none, error := some e,
        tool_name := some tc.name, execution_time := some u } := by
  have hd : dispatch_tool tool_mapping true tc t =
      { success := false, content := Option.none, error := some e,
        tool_name := some tc.name, execution_time := some t } := by
    unfold dispatch_tool
    rw [if_neg (by simp), hf]
    simp only [he]
  refine ⟨hd, ?_⟩
  unfold execute_tool
  rw [if_pos hs]
  simp only [hd]

/-- C1 witness: a handler raising `"boom"` is converted, not
propagated, at a concrete call. -/
theorem C1_dispatch_total_witness :
    dispatch_tool [("t", boom_handler)] true ⟨"id1", "t", []⟩ 3 =
      { success := false, content := Option.none, error := some "boom",
        tool_name := some "t", execution_time := some 3 } ∧
    execute_tool ["t"] (fun c => dispatch_tool [("t", boom_handler)] true c 3)
        ⟨"id1", "t", []⟩ 4 =
      { success := false, content := Option.none, error := some "boom",
        tool_name := some "t", execution_time := some 4 } :=
  C1_dispatch_total [("t", boom_handler)] ["t"] ⟨"id1", "t", []⟩ 3 4
    boom_handler "boom" rfl rfl (by simp)

/-- C2: batch dispatch (both `dispatch_batch` and the identical
`batch_execute`) returns exactly one result per call, with slot `i`
determined by call `i` alone: a resolved task keeps its result, a task
that raised becomes a failed result carrying the exception message and
that call's tool name, independently of every other slot. -/
theorem C2_batch_order_isolation (task : ToolCall → Except String ToolResult)
    (tool_calls : List ToolCall) :
    (dispatch_batch task tool_calls).length = tool_calls.length ∧
    batch_execute task tool_calls = dispatch_batch task tool_calls ∧
    (∀ i : Nat, ∀ c : ToolCall, tool_calls[i]? = some c →
      (dispatch_batch task tool_calls)[i]? = some (gather_slot task c)) := by
  refine ⟨?_, rfl, ?_⟩
  · rw [dispatch_batch, gather_batch_eq_map, List.length_map]
  · intro i c hc
    rw [dispatch_batch, gather_batch_eq_map, List.getElem?_map, hc]
    rfl

/-- A concrete task oracle for the C2 witness: the second call's task
raises, the first resolves. -/
def c2_task : ToolCall → Except String ToolResult := fun c =>
  if c.name = "crashy" then .error "task exploded"
  else .ok { success := true, content := some (.str "fine"),
             tool_name := some c.name, execution_time := some 2 }

/-- C2 witness: on a concrete two-call batch with a crashing second
task, the output has length 2 and slot 1 holds the converted failure. -/
theorem C2_batch_order_isolation_witness :
    (dispatch_batch c2_task [⟨"a", "good", []⟩, ⟨"b", "crashy", []⟩]).length = 2 ∧
    (dispatch_batch c2_task [⟨"a", "good", []⟩, ⟨"b", "crashy", []⟩])[1]? =
      some { success := false, content := Option.none,
             error := some "task exploded", tool_name := some "crashy",
             execution_time := Option.none } := by
  have h := C2_batch_order_isolation c2_task [⟨"a", "good", []⟩, ⟨"b", "crashy", []⟩]
  refine ⟨h.1, ?_⟩
  rw [h.2.2 1 ⟨"b", "crashy", []⟩ rfl]
  rfl

/-- C6: `is_expired` is true exactly when an expiry timestamp exists
and now is at or past it; and for a service whose cached credential is
expired, while the environment yields nothing (no successful refresh),
`get_auth_headers` returns the empty mapping. -/
theorem C6_expired_credentials (getenv : String → Option String)
    (path_exists : String → Bool) (now : Int)
    (cache : List (String × Credentials)) (service : String) (cred : Credentials)
    (hc : cacheLookup cache service = some cred)
    (hx : cred.is_expired now = true)
    (he : load_credentials_from_env getenv path_exists now service = Option.none) :
    (∀ c : Credentials, ∀ n : Int,
      c.is_expired n = true ↔ ∃ e, c.expires_at = some e ∧ e ≤ n) ∧
    get_auth_headers getenv path_exists now cache service = [] := by
  constructor
  · intro c n
    unfold Credentials.is_expired
    cases hce : c.expires_at with
    | none => simp
    | some e2 => simp [hce]
  · unfold get_auth_headers get_credentials
    rw [hc, he]
    simp [hx]

/-- Empty environment for the C6 witness. -/
def c6_getenv : String → Option String := fun _ => Option.none

/-- No filesystem paths exist in the C6 witness. -/
def c6_path_exists : String → Bool := fun _ => false

/-- A github credential that expired at timestamp 5. -/
def c6_cred : Credentials := .apiKey "github" 0 (some 5) "k"

/-- C6 witness: at time 10 the credential cached for `github` (expiry 5)
reports expired and the auth headers are empty. -/
theorem C6_expired_credentials_witness :
    (c6_cred.is_expired 10 = true ↔ ∃ e, c6_cred.expires_at = some e ∧ e ≤ 10) ∧
    get_auth_headers c6_getenv c6_path_exists 10 [("github", c6_cred)] "github" = [] := by
  have h := C6_expired_credentials c6_getenv c6_path_exists 10
    [("github", c6_cred)] "github" c6_cred rfl rfl rfl
  exact ⟨h.1 c6_cred 10, h.2⟩

/-- C7: parsing the scenario input against the allow-list
`["web_search"]` yields exactly one invocation, named `web_search`, with
the quoted argument parsed as the string `positive it` and the unquoted
one as the integer 3 (inline syntax, hence confidence 0.8). -/
theorem C7_scenario_parse :
    parse_llm_response "I will run web_search(query=\"positive it\", num_results=3)"
        ["web_search"] =
      [⟨"web_search",
        [("query", .str "positive it"), ("num_results", .int 3)],
        "web_search(query=\"positive it\", num_results=3)", 80⟩] := by
  rfl

/-- With an empty allow-list every candidate of every encoding is
filtered out, so text parsing yields nothing. -/
theorem parse_llm_response_nil_allowlist (text : String) :
    parse_llm_response text [] = [] := by
  have h1 : parse_xml_style text [] = [] := by
    rw [parse_xml_style, List.filterMap_eq_nil_iff]
    intro m hm
    simp
  have h2 : parse_json_tool_use text [] = [] := by
    rw [parse_json_tool_use, List.filterMap_eq_nil_iff]
    intro m hm
    simp
  have h3 : parse_standard_calls text [] = [] := by
    rw [parse_standard_calls, List.filterMap_eq_nil_iff]
    intro m hm
    simp
  have h4 : parse_markdown_calls text [] = [] := by
    rw [parse_markdown_calls, List.filterMap_eq_nil_iff]
    intro m hm
    simp
  rw [parse_llm_response, h1, h2, h3, h4]
  rfl

/-- C10: a Gemini response with no native function calls but nonempty
text produces no tool calls: the fallback hands the parser an empty
available-tools list, which accepts nothing. -/
theorem C10_gemini_text_fallback_empty (resp : GeminiResponse)
    (hn : resp.function_calls = []) (s : String) (ht : resp.text = some s)
    (hs : s ≠ "") :
    extract_from_gemini_response resp = [] := by
  unfold extract_from_gemini_response
  rw [hn, ht]
  simp [hs, parse_llm_response_nil_allowlist, create_tool_calls]

/-- C10 witness: a concrete text-only Gemini response whose text even
contains a plausible inline call still extracts nothing. -/
theorem C10_gemini_text_fallback_empty_witness :
    extract_from_gemini_response ⟨[], some "run web_search(query=\"x\")"⟩ = [] :=
  C10_gemini_text_fallback_empty ⟨[], some "run web_search(query=\"x\")"⟩ rfl
    "run web_search(query=\"x\")" rfl (by simp)

/-- A client stub whose dispatched results always carry a duration (for
C4 and C9). -/
def stub_exec_one : ToolCall → ToolResult := fun tc =>
  { success := true, content := some (.str "ok"), tool_name := some tc.name,
    execution_time := some 1 }

/-- Batch form of the client stub. -/
def stub_exec_many : List ToolCall → List ToolResult := fun cs =>
  cs.map stub_exec_one

/-- C4 (code bug, evaluated): one call is attempted — a Gemini native
call to `badtool`, which the allow-list rejects, so `execute_tools`
produces exactly one failed outcome whose `execution_time` is `None` —
yet the enhanced response is the original text with no rendered entry
at all: `format_tool_result_for_llm` formats the `None` duration with
`:.2f`, raising `TypeError`, and the orchestrator's `except` arm
swallows the rendered block (and even the outcome list). -/
theorem C4_unrendered_attempted_call :
    process_llm_response true true stub_exec_one stub_exec_many ["web_search"]
        "agent1" "hello" (some ⟨[⟨"badtool", []⟩], Option.none⟩) =
      ("hello", []) ∧
    execute_tools true stub_exec_one stub_exec_many ["web_search"] "agent1"
        [⟨"gemini_call_0", "badtool", []⟩] =
      [unauthorized_result "agent1" ⟨"gemini_call_0", "badtool", []⟩] ∧
    format_tool_result_for_llm
        (unauthorized_result "agent1" ⟨"gemini_call_0", "badtool", []⟩) =
      .error "unsupported format string passed to NoneType.__format__" :=
  ⟨rfl, rfl, rfl⟩

/-- C8 counterexample: a duplicated binding is not rejected — the dict
literal builds fine and silently resolves the key to the later handler,
discarding the earlier one. -/
theorem C8_duplicate_binding_not_rejected :
    py_dict_literal [("k", "h1"), ("k", "h2")] = [("k", "h2")] := rfl

/-- C8 (amended): in the registry as written all 57 names and aliases
are pairwise distinct, so the built mapping keeps every entry and each
name resolves to at most one handler; but nothing rejects duplicates at
build time — a duplicate key would silently last-win (see the
counterexample). -/
theorem C8_registry_unique_resolution :
    (tool_mapping_entries.map Prod.fst).Nodup ∧
    build_tool_mapping = tool_mapping_entries ∧
    (∀ k v1 v2, (k, v1) ∈ build_tool_mapping → (k, v2) ∈ build_tool_mapping →
      v1 = v2) := by
  have hnd : (tool_mapping_entries.map Prod.fst).Nodup := by decide
  have hb : build_tool_mapping = tool_mapping_entries := by decide
  refine ⟨hnd, hb, ?_⟩
  intro k v1 v2 h1 h2
  rw [hb] at h1 h2
  have := List.inj_on_of_nodup_map hnd h1 h2 rfl
  exact congrArg Prod.snd this

/-- C8 witness: concrete unique resolution of the alias
`search_files`. -/
theorem C8_registry_unique_resolution_witness :
    ("search_files", "gdrive_list_files") ∈ build_tool_mapping ∧
    (∀ v2, ("search_files", v2) ∈ build_tool_mapping → "gdrive_list_files" = v2) := by
  have h := C8_registry_unique_resolution
  refine ⟨by rw [h.2.1]; decide, fun v2 hv2 => ?_⟩
  exact h.2.2 "search_files" "gdrive_list_files" v2 (by rw [h.2.1]; decide) hv2

/-- The dispatched tail of `execute_tools`: nothing, a direct single
dispatch, or a batch. -/
def dispatched_results (execOne : ToolCall → ToolResult)
    (execMany : List ToolCall → List ToolResult) (available : List String)
    (tool_calls : List ToolCall) : List ToolResult :=
  match validated_calls available tool_calls with
  | [] => []
  | [v] => [execOne v]
  | vs => execMany vs

/-- Structure of `execute_tools`: all unauthorized failures (in input
order) first, then the dispatched results of the validated calls. -/
theorem execute_tools_eq (execOne : ToolCall → ToolResult)
    (execMany : List ToolCall → List ToolResult) (available : List String)
    (agent_id : String) (tool_calls : List ToolCall) :
    execute_tools true execOne execMany available agent_id tool_calls =
      (tool_calls.filter fun c => c.name ∉ available).map
          (unauthorized_result agent_id) ++
        dispatched_results execOne execMany available tool_calls := by
  unfold execute_tools dispatched_results
  rw [if_neg (by simp)]
  cases h : validated_calls available tool_calls with
  | nil => simp
  | cons v t =>
      cases t with
      | nil => simp
      | cons w t2 => simp

/-- Counting both partitions of a decidable filter. -/
theorem length_filter_partition {α : Type} (p : α → Prop) [DecidablePred p]
    (l : List α) :
    (l.filter fun a => ¬ p a).length + (l.filter fun a => p a).length = l.length := by
  induction l with
  | nil => rfl
  | cons a t ih =>
      by_cases h : p a
      · simp only [List.filter_cons]
        rw [if_neg (by simpa using h), if_pos (by simpa using h)]
        simp only [List.length_cons]
        omega
      · simp only [List.filter_cons]
        rw [if_pos (by simpa using h), if_neg (by simpa using h)]
        simp only [List.length_cons]
        omega

/-- C3: a call whose tool is outside the agent allow-list never enters
the validated list handed to the client/dispatcher, and the orchestrator
emits for it a failed result whose error names both the offending tool
and the agent id. -/
theorem C3_unauthorized_reported (execOne : ToolCall → ToolResult)
    (execMany : List ToolCall → List ToolResult) (available : List String)
    (agent_id : String) (tool_calls : List ToolCall) (c : ToolCall)
    (hmem : c ∈ tool_calls) (hna : c.name ∉ available) :
    unauthorized_result agent_id c ∈
      execute_tools true execOne execMany available agent_id tool_calls ∧
    c ∉ validated_calls available tool_calls ∧
    (unauthorized_result agent_id c).success = false ∧
    (∃ s1 s2 s3, (unauthorized_result agent_id c).error =
      some (s1 ++ c.name ++ s2 ++ agent_id ++ s3)) := by
  refine ⟨?_, ?_, rfl,
    ⟨"Tool \x27", "\x27 not available for agent \x27", "\x27", rfl⟩⟩
  · rw [execute_tools_eq]
    exact List.mem_append_left _
      (List.mem_map.mpr ⟨c, List.mem_filter.mpr ⟨hmem, by simpa using hna⟩, rfl⟩)
  · intro hcv
    exact hna (by simpa using (List.mem_filter.mp hcv).2)

/-- C3 witness: a concrete disallowed call is reported and never
validated. -/
theorem C3_unauthorized_reported_witness :
    unauthorized_result "agent1" ⟨"i1", "badtool", []⟩ ∈
      execute_tools true stub_exec_one stub_exec_many ["web_search"] "agent1"
        [⟨"i1", "badtool", []⟩] ∧
    (⟨"i1", "badtool", []⟩ : ToolCall) ∉
      validated_calls ["web_search"] [⟨"i1", "badtool", []⟩] := by
  have h := C3_unauthorized_reported stub_exec_one stub_exec_many ["web_search"]
    "agent1" [⟨"i1", "badtool", []⟩] ⟨"i1", "badtool", []⟩ (by simp) (by simp)
  exact ⟨h.1, h.2.1⟩

/-- C9: the outcome list of `execute_tools` is all unauthorized
failures first, then the dispatched results, with exactly one outcome
per input call; in particular an authorized call followed by an
unauthorized one comes back in inverted order. -/
theorem C9_unauthorized_failures_first (execOne : ToolCall → ToolResult)
    (execMany : List ToolCall → List ToolResult) (available : List String)
    (agent_id : String) (tool_calls : List ToolCall)
    (hlen : ∀ cs, (execMany cs).length = cs.length) :
    execute_tools true execOne execMany available agent_id tool_calls =
      (tool_calls.filter fun c => c.name ∉ available).map
          (unauthorized_result agent_id) ++
        dispatched_results execOne execMany available tool_calls ∧
    (execute_tools true execOne execMany available agent_id tool_calls).length =
      tool_calls.length ∧
    (∀ a b : ToolCall, a.name ∈ available → b.name ∉ available →
      execute_tools true execOne execMany available agent_id [a, b] =
        [unauthorized_result agent_id b, execOne a]) := by
  refine ⟨execute_tools_eq _ _ _ _ _, ?_, ?_⟩
  · rw [execute_tools_eq, List.length_append, List.length_map]
    have hd : (dispatched_results execOne execMany available tool_calls).length =
        (validated_calls available tool_calls).length := by
      unfold dispatched_results
      cases h : validated_calls available tool_calls with
      | nil => rfl
      | cons v t =>
          cases t with
          | nil => rfl
          | cons w t2 => simp [hlen]
    rw [hd]
    exact length_filter_partition (fun c : ToolCall => c.name ∈ available) tool_calls
  · intro a b ha hb
    rw [execute_tools_eq]
    simp [dispatched_results, validated_calls, List.filter_cons, ha, hb]

/-- C9 witness: with allow-list `["a"]`, the input (authorized `a`,
unauthorized `b`) comes back as (failure for `b`, result for `a`). -/
theorem C9_unauthorized_failures_first_witness :
    execute_tools true stub_exec_one stub_exec_many ["a"] "ag"
        [⟨"i1", "a", []⟩, ⟨"i2", "b", []⟩] =
      [unauthorized_result "ag" ⟨"i2", "b", []⟩, stub_exec_one ⟨"i1", "a", []⟩] ∧
    (execute_tools true stub_exec_one stub_exec_many ["a"] "ag"
        [⟨"i1", "a", []⟩, ⟨"i2", "b", []⟩]).length = 2 := by
  have h := C9_unauthorized_failures_first stub_exec_one stub_exec_many ["a"] "ag"
    [⟨"i1", "a", []⟩, ⟨"i2", "b", []⟩]
    (fun cs => by simp [stub_exec_many])
  exact ⟨h.2.2 ⟨"i1", "a", []⟩ ⟨"i2", "b", []⟩ (by simp) (by simp), h.2.1⟩

/-
  Deduplication (claim C5).  The fold maintaining the `call_groups`
  dict is analysed through an invariant tying the dict to the processed
  prefix of the detection list.
-/

/-- Keep the first occurrence of each element (the insertion order of a
Python dict's keys). -/
def firstOccurAux {α : Type} [DecidableEq α] (seen : List α) : List α → List α
  | [] => []
  | a :: t => if a ∈ seen then firstOccurAux seen t
              else a :: firstOccurAux (a :: seen) t

/-- First-occurrence subsequence of a list. -/
def firstOccur {α : Type} [DecidableEq α] (l : List α) : List α :=
  firstOccurAux [] l

/-- Appending one element extends the first-occurrence list exactly
when the element is new. -/
theorem firstOccurAux_append {α : Type} [DecidableEq α] (l : List α) :
    ∀ (seen : List α) (a : α),
      firstOccurAux seen (l ++ [a]) =
        firstOccurAux seen l ++ (if a ∈ seen ∨ a ∈ l then [] else [a]) := by
  induction l with
  | nil =>
      intro seen a
      by_cases h : a ∈ seen
      · simp [firstOccurAux, h]
      · simp [firstOccurAux, h]
  | cons h t ih =>
      intro seen a
      by_cases hh : h ∈ seen
      · have hcond : (a ∈ seen ∨ a ∈ t) ↔ (a ∈ seen ∨ a ∈ h :: t) := by
          constructor
          · rintro (x | x)
            · exact Or.inl x
            · exact Or.inr (List.mem_cons.mpr (Or.inr x))
          · rintro (x | x)
            · exact Or.inl x
            · rcases List.mem_cons.mp x with rfl | x2
              · exact Or.inl hh
              · exact Or.inr x2
        rw [List.cons_append]
        simp only [firstOccurAux, if_pos hh]
        rw [ih seen a]
        simp only [hcond]
      · have hcond : (a ∈ h :: seen ∨ a ∈ t) ↔ (a ∈ seen ∨ a ∈ h :: t) := by
          constructor
          · rintro (x | x)
            · rcases List.mem_cons.mp x with rfl | x2
              · exact Or.inr (List.mem_cons.mpr (Or.inl rfl))
              · exact Or.inl x2
            · exact Or.inr (List.mem_cons.mpr (Or.inr x))
          · rintro (x | x)
            · exact Or.inl (List.mem_cons.mpr (Or.inr x))
            · rcases List.mem_cons.mp x with rfl | x2
              · exact Or.inl (List.mem_cons.mpr (Or.inl rfl))
              · exact Or.inr x2
        rw [List.cons_append]
        simp only [firstOccurAux, if_neg hh]
        rw [ih (h :: seen) a]
        simp only [hcond, List.cons_append]

/-- Invariant of the `_deduplicate_calls` grouping fold after the
prefix `pre` has been processed: every entry is keyed by its own call
key and holds a processed detection; keys are pairwise distinct; every
processed detection is dominated by the entry at its key; and the key
list is the first-occurrence sequence of the processed keys. -/
def DedupInv (pre : List ParsedFunctionCall)
    (groups : List ((String × String) × ParsedFunctionCall)) : Prop :=
  (∀ kv ∈ groups, kv.1 = call_key kv.2 ∧ kv.2 ∈ pre) ∧
  (groups.map Prod.fst).Nodup ∧
  (∀ c ∈ pre, ∃ kv, kv ∈ groups ∧ kv.1 = call_key c ∧
    c.confidence ≤ kv.2.confidence) ∧
  groups.map Prod.fst = firstOccur (pre.map call_key)

/-- The invariant survives one step of the grouping fold. -/
theorem dedup_inv_step (pre : List ParsedFunctionCall)
    (groups : List ((String × String) × ParsedFunctionCall))
    (call : ParsedFunctionCall) (h : DedupInv pre groups) :
    DedupInv (pre ++ [call]) (dedup_step groups call) := by
  obtain ⟨h1, h2, h3, h4⟩ := h
  unfold dedup_step
  cases hl : lookupKey groups (call_key call) with
  | none =>
      have hne : ∀ kv ∈ groups, kv.1 ≠ call_key call := lookupKey_eq_none hl
      have hkey_not_pre : call_key call ∉ pre.map call_key := by
        intro hk
        rcases List.mem_map.mp hk with ⟨c2, hc2, he⟩
        rcases h3 c2 hc2 with ⟨kv, hkv, hk2, _⟩
        exact hne kv hkv (by rw [hk2, he])
      have hkey_not_fst : call_key call ∉ groups.map Prod.fst := by
        intro hk
        rcases List.mem_map.mp hk with ⟨kv, hkv, he⟩
        exact hne kv hkv he
      rw [dictInsert_eq_append hne]
      refine ⟨?_, ?_, ?_, ?_⟩
      · intro kv hkv
        rcases List.mem_append.mp hkv with h5 | h5
        · obtain ⟨ha, hb⟩ := h1 kv h5
          exact ⟨ha, List.mem_append_left _ hb⟩
        · have h6 : kv = (call_key call, call) := by simpa using h5
          subst h6
          exact ⟨rfl, List.mem_append_right _ (by simp)⟩
      · rw [List.map_append]
        simp only [List.map_cons, List.map_nil]
        rw [List.nodup_append]
        refine ⟨h2, List.nodup_singleton _, fun x hx hx2 => ?_⟩
        have hxk : x = call_key call := by simpa using hx2
        exact hkey_not_fst (hxk ▸ hx)
      · intro c hc
        rcases List.mem_append.mp hc with h5 | h5
        · rcases h3 c h5 with ⟨kv, hkv, ha, hb⟩
          exact ⟨kv, List.mem_append_left _ hkv, ha, hb⟩
        · have h6 : c = call := by simpa using h5
          refine ⟨(call_key call, call), List.mem_append_right _ (by simp), ?_, ?_⟩
          · simp [h6]
          · simp [h6]
      · rw [List.map_append, List.map_append]
        simp only [List.map_cons, List.map_nil]
        rw [h4, firstOccur, firstOccur, firstOccurAux_append]
        rw [if_neg (by simpa using hkey_not_pre)]
  | some prev =>
      have hmem_prev : (call_key call, prev) ∈ groups := lookupKey_some_mem hl
      have hkey_mem_fst : call_key call ∈ groups.map Prod.fst :=
        List.mem_map.mpr ⟨_, hmem_prev, rfl⟩
      have hkey_mem_pre : call_key call ∈ pre.map call_key := by
        obtain ⟨hk, hp⟩ := h1 _ hmem_prev
        exact List.mem_map.mpr ⟨prev, hp, hk.symm⟩
      have hfo : firstOccur ((pre ++ [call]).map call_key) =
          firstOccur (pre.map call_key) := by
        rw [List.map_append]
        simp only [List.map_cons, List.map_nil]
        rw [firstOccur, firstOccur, firstOccurAux_append]
        rw [if_pos (Or.inr hkey_mem_pre)]
        simp
      show DedupInv (pre ++ [call])
        (if prev.confidence < call.confidence then
          dictInsert (call_key call) call groups else groups)
      by_cases hconf : prev.confidence < call.confidence
      · rw [if_pos hconf]
        refine ⟨?_, ?_, ?_, ?_⟩
        · intro kv hkv
          rcases mem_dictInsert hkv with h5 | h5
          · subst h5
            exact ⟨rfl, List.mem_append_right _ (by simp)⟩
          · obtain ⟨ha, hb⟩ := h1 kv h5
            exact ⟨ha, List.mem_append_left _ hb⟩
        · rw [map_fst_dictInsert_mem hkey_mem_fst]
          exact h2
        · intro c hc
          rcases List.mem_append.mp hc with h5 | h5
          · rcases h3 c h5 with ⟨kv, hkv, ha, hb⟩
            by_cases hk : kv.1 = call_key call
            · have hkv_eq : kv = (call_key call, prev) :=
                List.inj_on_of_nodup_map h2 hkv hmem_prev (by rw [hk])
              refine ⟨(call_key call, call), mem_dictInsert_self, ?_, ?_⟩
              · rw [← hk, ha]
              · have h7 : kv.2 = prev := by rw [hkv_eq]
                have hb2 : c.confidence ≤ prev.confidence := by
                  rw [← h7]
                  exact hb
                exact le_trans hb2 (le_of_lt hconf)
            · exact ⟨kv, mem_dictInsert_of_ne hkv hk, ha, hb⟩
          · have h6 : c = call := by simpa using h5
            refine ⟨(call_key call, call), mem_dictInsert_self, ?_, ?_⟩
            · simp [h6]
            · simp [h6]
        · rw [map_fst_dictInsert_mem hkey_mem_fst, hfo]
          exact h4
      · rw [if_neg hconf]
        refine ⟨?_, h2, ?_, ?_⟩
        · intro kv hkv
          obtain ⟨ha, hb⟩ := h1 kv hkv
          exact ⟨ha, List.mem_append_left _ hb⟩
        · intro c hc
          rcases List.mem_append.mp hc with h5 | h5
          · rcases h3 c h5 with ⟨kv, hkv, ha, hb⟩
            exact ⟨kv, hkv, ha, hb⟩
          · have h6 : c = call := by simpa using h5
            refine ⟨(call_key call, prev), hmem_prev, ?_, ?_⟩
            · simp [h6]
            · rw [h6]
              exact le_of_not_lt hconf
        · rw [hfo]
          exact h4

/-- The invariant holds after folding any detection list. -/
theorem dedup_inv_fold (calls : List ParsedFunctionCall) :
    ∀ (pre : List ParsedFunctionCall)
      (groups : List ((String × String) × ParsedFunctionCall)),
      DedupInv pre groups →
      DedupInv (pre ++ calls) (calls.foldl dedup_step groups) := by
  induction calls with
  | nil =>
      intro pre groups h
      simpa using h
  | cons c t ih =>
      intro pre groups h
      have h2 := ih (pre ++ [c]) (dedup_step groups c) (dedup_inv_step pre groups c h)
      simpa [List.append_assoc] using h2

/-- The invariant at the start of the fold. -/
theorem dedup_inv_nil : DedupInv [] [] :=
  ⟨by simp, by simp, by simp, by simp [firstOccur, firstOccurAux]⟩

/-- The 0.9-confidence tagged-block detection of `search(query="x")`. -/
def c5_tagged_detection : ParsedFunctionCall :=
  ⟨"search", [("query", .str "x")],
    "<function_call name=\"search\">\x7b\"query\": \"x\"\x7d</function_call>", 90⟩

/-- The 0.8-confidence inline detection of the same call. -/
def c5_inline_detection : ParsedFunctionCall :=
  ⟨"search", [("query", .str "x")], "search(query=\"x\")", 80⟩

/-- C5: deduplication is keyed by `(name, sorted-keys JSON dump of the
arguments)`: the output draws from the input, keeps at most one
detection per key, dominates every input detection's confidence at its
key, and lists keys in first-occurrence order; concretely, a 0.9
tagged-block detection and a 0.8 inline detection of the same call
leave exactly the 0.9 one, whichever came first. -/
theorem C5_dedup_highest_confidence (calls : List ParsedFunctionCall) :
    (∀ c ∈ deduplicate_calls calls, c ∈ calls) ∧
    (∀ c ∈ deduplicate_calls calls, ∀ c2 ∈ deduplicate_calls calls,
      call_key c = call_key c2 → c = c2) ∧
    (∀ c ∈ calls, ∃ c2, c2 ∈ deduplicate_calls calls ∧
      call_key c2 = call_key c ∧ c.confidence ≤ c2.confidence) ∧
    (deduplicate_calls calls).map call_key = firstOccur (calls.map call_key) ∧
    deduplicate_calls [c5_tagged_detection, c5_inline_detection] =
      [c5_tagged_detection] ∧
    deduplicate_calls [c5_inline_detection, c5_tagged_detection] =
      [c5_tagged_detection] := by
  have hinv := dedup_inv_fold calls [] [] dedup_inv_nil
  rw [List.nil_append] at hinv
  obtain ⟨h1, h2, h3, h4⟩ := hinv
  refine ⟨?_, ?_, ?_, ?_, rfl, rfl⟩
  · intro c hc
    rcases List.mem_map.mp hc with ⟨kv, hkv, he⟩
    exact he ▸ (h1 kv hkv).2
  · intro c hc c2 hc2 hk
    rcases List.mem_map.mp hc with ⟨kv, hkv, he⟩
    rcases List.mem_map.mp hc2 with ⟨kv2, hkv2, he2⟩
    have hk1 : kv.1 = kv2.1 := by
      rw [(h1 kv hkv).1, (h1 kv2 hkv2).1, he, he2, hk]
    have : kv = kv2 := List.inj_on_of_nodup_map h2 hkv hkv2 hk1
    rw [← he, ← he2, this]
  · intro c hc
    rcases h3 c hc with ⟨kv, hkv, ha, hb⟩
    exact ⟨kv.2, List.mem_map.mpr ⟨kv, hkv, rfl⟩, by rw [← (h1 kv hkv).1, ha], hb⟩
  · calc (deduplicate_calls calls).map call_key
        = (calls.foldl dedup_step []).map (fun kv => call_key kv.2) := by
          rw [deduplicate_calls, List.map_map]; rfl
      _ = (calls.foldl dedup_step []).map Prod.fst :=
          List.map_congr_left fun kv hkv => ((h1 kv hkv).1).symm
      _ = firstOccur (calls.map call_key) := h4

/-- C5 witness: in the concrete two-detection scenario the inline
detection is dominated by a surviving entry with its key — the 0.9
tagged detection. -/
theorem C5_dedup_highest_confidence_witness :
    ∃ c2, c2 ∈ deduplicate_calls [c5_tagged_detection, c5_inline_detection] ∧
      call_key c2 = call_key c5_inline_detection ∧
      c5_inline_detection.confidence ≤ c2.confidence := by
  have h := C5_dedup_highest_confidence [c5_tagged_detection, c5_inline_detection]
  exact h.2.2.1 c5_inline_detection (by simp)

end MCPSpec
